import Mathlib

/-!
Verification of the SLOW protocol peripheral client.

The development shallowly embeds the C++ sources (slow_packet.hpp,
session.hpp, peripheral.cpp).  Bytes are modelled as `Nat` with the C++
fixed-width types expressed as validity bounds; machine-integer wraparound
is made explicit with `% 2 ^ w` at the update sites where the C++ type
would truncate.  Time points (`std::chrono::steady_clock::time_point`) are
modelled as `Nat`, with `0` playing the role of the epoch default used by
the code to mean "never sent".
-/

set_option linter.unusedVariables false

namespace Slow

/-- Flag bits from the anonymous C++ enum in slow_packet.hpp. -/
def FLAG_CONNECT : Nat := 16

/-- REVIVE flag bit (1 << 3). -/
def FLAG_REVIVE : Nat := 8

/-- ACK flag bit (1 << 2). -/
def FLAG_ACK : Nat := 4

/-- ACCEPT flag bit (1 << 1). -/
def FLAG_ACCEPT : Nat := 2

/-- MOREBITS flag bit (1 << 0). -/
def FLAG_MOREBITS : Nat := 1

/-- `struct Packet` from slow_packet.hpp.  The 16-byte `UUID sid` is a
byte list of length 16 (the length is part of `Packet.Valid`). -/
structure Packet where
  sid : List Nat
  sttl : Nat
  flags : Nat
  seqnum : Nat
  acknum : Nat
  window : Nat
  fid : Nat
  fo : Nat
  data : List Nat
deriving DecidableEq

/-- The all-default packet, `Packet p;` / `Packet d{};` in the C++. -/
def Packet.default0 : Packet :=
  { sid := List.replicate 16 0, sttl := 0, flags := 0, seqnum := 0,
    acknum := 0, window := 0, fid := 0, fo := 0, data := [] }

/-- `Packet::append16le`: push `x` and `x >> 8` as bytes. -/
def append16le (x : Nat) : List Nat :=
  [x % 256, x / 2 ^ 8 % 256]

/-- `Packet::append32le`: push the four little-endian bytes of `x`. -/
def append32le (x : Nat) : List Nat :=
  [x % 256, x / 2 ^ 8 % 256, x / 2 ^ 16 % 256, x / 2 ^ 24 % 256]

/-- `Packet::read16le` on the buffer suffix starting at the read offset. -/
def read16le (l : List Nat) : Nat :=
  l.getD 0 0 ||| l.getD 1 0 <<< 8

/-- `Packet::read32le` on the buffer suffix starting at the read offset. -/
def read32le (l : List Nat) : Nat :=
  l.getD 0 0 ||| l.getD 1 0 <<< 8 ||| l.getD 2 0 <<< 16 ||| l.getD 3 0 <<< 24

/-- `Packet::serialize`.  The C++ throws `runtime_error` when the payload
exceeds 1440 bytes; the embedding returns `none` there. -/
def Packet.serialize (p : Packet) : Option (List Nat) :=
  if 1440 < p.data.length then none
  else some (p.sid ++
    append32le ((p.sttl &&& 0x07FFFFFF) <<< 5 ||| (p.flags &&& 0x1F)) ++
    append32le p.seqnum ++ append32le p.acknum ++ append16le p.window ++
    [p.fid, p.fo] ++ p.data)

/-- `Packet::deserialize`.  The C++ throws (`pacote curto`) when fewer than
32 bytes arrive; the embedding returns `none` there.  Reads at offset `k`
(`buf + off`, `buf[off]`) become reads on `buf.drop k`. -/
def Packet.deserialize (buf : List Nat) : Option Packet :=
  if buf.length < 32 then none
  else
    let flags_sttl := read32le (buf.drop 16)
    some {
      sid := buf.take 16
      flags := flags_sttl &&& 0x1F
      sttl := flags_sttl >>> 5
      seqnum := read32le (buf.drop 20)
      acknum := read32le (buf.drop 24)
      window := read16le (buf.drop 28)
      fid := (buf.drop 30).getD 0 0
      fo := (buf.drop 31).getD 0 0
      data := buf.drop 32 }

/-- The C++ type invariants of `Packet` (field widths), together with the
27-bit/5-bit bounds the wire format gives `sttl` and `flags`. -/
def Packet.Valid (p : Packet) : Prop :=
  p.sid.length = 16 ∧ p.sttl < 2 ^ 27 ∧ p.flags < 2 ^ 5 ∧
  p.seqnum < 2 ^ 32 ∧ p.acknum < 2 ^ 32 ∧ p.window < 2 ^ 16 ∧
  p.fid < 2 ^ 8 ∧ p.fo < 2 ^ 8

instance (p : Packet) : Decidable p.Valid := by
  unfold Packet.Valid; infer_instance

/-! ### Session state (session.hpp) -/

/-- `struct Outbound`: a queued packet with its two timestamps.  Time is a
`Nat`; `0` is the epoch default, which the code uses to mean "never". -/
structure Outbound where
  pkt : Packet
  first_sent : Nat
  last_sent : Nat
deriving DecidableEq

/-- The state of `class Session` (the `start_` time point carries no
protocol logic and is omitted). -/
structure Session where
  sid : List Nat
  sttl_ms : Nat
  next_seq : Nat
  last_ack_rcvd : Nat
  local_window : Nat
  window_remote : Nat
  next_fid : Nat
  last_rx_seq : Nat
  txq : List Outbound
deriving DecidableEq

/-- The `Session` constructor (`Session(uint16_t local_window = 65535)`). -/
def Session.fresh (local_window : Nat := 65535) : Session :=
  { sid := List.replicate 16 0, sttl_ms := 0, next_seq := 0, last_ack_rcvd := 0,
    local_window := local_window, window_remote := 0, next_fid := 1,
    last_rx_seq := 0, txq := [] }

/-- `Session::establish`.  `next_seq_ = setup.seqnum + 1` is uint32
arithmetic, hence the `% 2 ^ 32`. -/
def Session.establish (s : Session) (setup : Packet) : Session :=
  { s with
    sid := setup.sid
    sttl_ms := setup.sttl
    next_seq := (setup.seqnum + 1) % 2 ^ 32
    window_remote := setup.window
    last_ack_rcvd := setup.acknum }

/-- `Session::take_seq`: return `next_seq_` and post-increment it. -/
def Session.take_seq (s : Session) : Nat × Session :=
  (s.next_seq, { s with next_seq := (s.next_seq + 1) % 2 ^ 32 })

/-- `Session::note_rx_seq`. -/
def Session.note_rx_seq (s : Session) (sq : Nat) : Session :=
  if sq ≠ 0 then { s with last_rx_seq := sq } else s

/-- In-flight bytes: the sum of payload sizes of queued entries already
transmitted at least once (`last_sent` non-zero). -/
def Session.in_flight (s : Session) : Nat :=
  ((s.txq.filter (fun o => o.last_sent != 0)).map
    (fun o => o.pkt.data.length)).sum

/-- `Session::window_remote_left`. -/
def Session.window_remote_left (s : Session) : Nat :=
  if s.in_flight < s.window_remote then s.window_remote - s.in_flight else 0

/-- `Session::local_window_left` (returns `local_window_`). -/
def Session.local_window_left (s : Session) : Nat :=
  s.local_window

/-- The `queue_data` fragmentation loop.  `off` is the payload offset and
`fo` the running fragment-offset counter (a `uint8_t` in the C++, so the
stored value is `fo % 2 ^ 8`).  The C++ `while (off < payload.size())`
loop advances `off` by at least one byte per iteration, so it runs at most
`payload.length` iterations; the embedding makes the recursion structural
over a fuel counter that `queue_data` instantiates with
`payload.length + 1`, and `queue_data_go_fuel` below proves the result
does not depend on the fuel once it exceeds the remaining byte count. -/
def Session.queue_data_go (payload : List Nat) (is_revive : Bool) :
    Nat → Session → Nat → Nat → Session
  | 0, s, _, _ => s
  | fuel + 1, s, off, fo =>
    if off < payload.length then
      let avail := s.window_remote_left
      if avail = 0 ∧ s.txq ≠ [] then s
      else
        let here := min (min (if avail = 0 then 1440 else avail) 1440)
          (payload.length - off)
        let fl0 := if is_revive ∧ off = 0 then FLAG_ACK ||| FLAG_REVIVE
          else FLAG_ACK
        let fl1 := if off + here < payload.length then fl0 ||| FLAG_MOREBITS
          else fl0
        let p : Packet :=
          { sid := s.sid, sttl := s.sttl_ms, flags := fl1,
            seqnum := s.next_seq, acknum := s.last_rx_seq,
            window := s.local_window_left,
            fid := if 1440 < payload.length then s.next_fid else 0,
            fo := fo % 2 ^ 8,
            data := (payload.drop off).take here }
        Session.queue_data_go payload is_revive fuel
          { s with
            next_seq := (s.next_seq + 1) % 2 ^ 32
            txq := s.txq ++ [⟨p, 0, 0⟩] }
          (off + here) (fo + 1)
    else s

/-- `Session::queue_data`: the empty-payload revive special case, the
fragmentation loop, and the trailing `next_fid_++` (uint8 arithmetic). -/
def Session.queue_data (s : Session) (payload : List Nat)
    (is_revive : Bool := false) : Session :=
  if payload = [] ∧ is_revive then
    let p : Packet :=
      { sid := s.sid, sttl := s.sttl_ms, flags := FLAG_REVIVE ||| FLAG_ACK,
        seqnum := s.next_seq, acknum := s.last_rx_seq,
        window := s.local_window_left, fid := 0, fo := 0, data := [] }
    { s with
      next_seq := (s.next_seq + 1) % 2 ^ 32
      txq := s.txq ++ [⟨p, 0, 0⟩] }
  else
    let s1 := Session.queue_data_go payload is_revive (payload.length + 1) s 0 0
    if 1440 < payload.length then
      { s1 with next_fid := (s1.next_fid + 1) % 2 ^ 8 }
    else s1

/-- `Session::handle_ack`: adopt window and sttl, overwrite
`last_ack_rcvd_`, and pop acknowledged entries from the queue front. -/
def Session.handle_ack (s : Session) (acknum win_remote new_sttl : Nat) :
    Session :=
  { s with
    last_ack_rcvd := acknum
    window_remote := win_remote
    sttl_ms := new_sttl
    txq := s.txq.dropWhile (fun o => o.pkt.seqnum ≤ acknum) }

/-- `Session::mark_sent`, addressed by queue index (the C++ mutates
through the pointer returned by `ready_to_send`). -/
def Session.mark_sent (s : Session) (i now : Nat) : Session :=
  match s.txq[i]? with
  | some o => { s with txq := s.txq.set i { o with last_sent := now } }
  | none => s

/-- The walk inside `Session::ready_to_send`: `bytes_left` is the running
window budget; a sent-and-not-timed-out entry is skipped, a REVIVE entry
is always admitted, a fitting data entry is admitted and charged, and a
non-fitting data entry stops the walk. -/
def ready_go (now rto : Nat) : List Outbound → Nat → List Outbound
  | [], _ => []
  | ob :: rest, bytes_left =>
    let never_sent := ob.first_sent = 0
    let timed_out := ¬never_sent ∧ rto < now - ob.last_sent
    if ¬never_sent ∧ ¬timed_out then ready_go now rto rest bytes_left
    else if ob.pkt.flags &&& FLAG_REVIVE ≠ 0 then
      ob :: ready_go now rto rest bytes_left
    else if ob.pkt.data.length ≤ bytes_left then
      ob :: ready_go now rto rest (bytes_left - ob.pkt.data.length)
    else []

/-- `Session::ready_to_send` at clock value `now`. -/
def Session.ready_to_send (s : Session) (rto now : Nat) : List Outbound :=
  ready_go now rto s.txq s.window_remote_left


/-! ### Driver-loop fragments (peripheral.cpp, drive_session) -/

/-- The disconnect-initiation step of `drive_session`: synthesize the
disconnect packet (flags `CONNECT|REVIVE|ACK`, fresh seqnum via
`take_seq`, `acknum = last_rx_seq`, `window = 0`) without queueing it. -/
def drive_disconnect (s : Session) : Packet × Session :=
  ({ sid := s.sid, sttl := s.sttl_ms,
     flags := FLAG_CONNECT ||| FLAG_REVIVE ||| FLAG_ACK,
     seqnum := s.take_seq.1, acknum := s.last_rx_seq, window := 0,
     fid := 0, fo := 0, data := [] }, s.take_seq.2)

/-- The receive-phase session update of `drive_session` for one inbound
packet: `note_rx_seq`, then `handle_ack` when the ACK flag is set. -/
def drive_rx (s : Session) (pk : Packet) : Session :=
  let s1 := s.note_rx_seq pk.seqnum
  if pk.flags &&& FLAG_ACK ≠ 0 then s1.handle_ack pk.acknum pk.window pk.sttl
  else s1

/-- The disconnect-confirmation test of `drive_session`, evaluated after
the receive-phase update: `waiting_dc_ack && (pk.flags & FLAG_ACK) &&
pk.seqnum == sess.last_ack()`. -/
def dc_confirmed (s : Session) (waiting_dc_ack : Bool) (pk : Packet) : Bool :=
  waiting_dc_ack && (pk.flags &&& FLAG_ACK != 0) &&
    (pk.seqnum == (drive_rx s pk).last_ack_rcvd)

/-! ### Reachability relations for the queue invariant (C10) -/

/-- Session states reachable from a freshly established session by the
public operations as the claim lists them (including re-`establish`),
with unconstrained arguments. -/
inductive ReachesO : Session → Prop
  | base (w : Nat) (setup : Packet) : ReachesO ((Session.fresh w).establish setup)
  | estab (s : Session) (setup : Packet) : ReachesO s → ReachesO (s.establish setup)
  | queue (s : Session) (payload : List Nat) (r : Bool) :
      ReachesO s → ReachesO (s.queue_data payload r)
  | hack (s : Session) (a w t : Nat) : ReachesO s → ReachesO (s.handle_ack a w t)
  | mark (s : Session) (i now : Nat) : ReachesO s → ReachesO (s.mark_sent i now)
  | tseq (s : Session) : ReachesO s → ReachesO s.take_seq.2

/-- Session states reachable from a freshly established session when
`establish` is used only for the initial setup and the sequence-number
space is never exhausted (no uint32 wraparound of `next_seq`). -/
inductive ReachesA : Session → Prop
  | base (w : Nat) (setup : Packet) : ReachesA ((Session.fresh w).establish setup)
  | queue (s : Session) (payload : List Nat) (r : Bool) :
      ReachesA s → s.next_seq + payload.length + 1 < 2 ^ 32 →
      ReachesA (s.queue_data payload r)
  | hack (s : Session) (a w t : Nat) : ReachesA s → ReachesA (s.handle_ack a w t)
  | mark (s : Session) (i now : Nat) : ReachesA s → ReachesA (s.mark_sent i now)
  | tseq (s : Session) : ReachesA s → s.next_seq + 1 < 2 ^ 32 →
      ReachesA s.take_seq.2

/-! ### Concrete states used by witnesses and counterexamples -/

/-- A concrete valid packet used by witnesses. -/
def pkt0 : Packet :=
  { sid := List.replicate 16 7, sttl := 123456, flags := 21, seqnum := 42,
    acknum := 7, window := 1000, fid := 3, fo := 1, data := [104, 105] }

/-- A freshly established session: setup seqnum 100, remote window 65535. -/
def estA : Session :=
  (Session.fresh 65535).establish
    { Packet.default0 with seqnum := 100, window := 65535 }

/-- A freshly established session whose remote window is only 2 bytes. -/
def estW2 : Session :=
  (Session.fresh 65535).establish { Packet.default0 with window := 2 }

/-- A queued entry holding a default packet with the given seqnum. -/
def mkE (n : Nat) : Outbound :=
  ⟨{ Packet.default0 with seqnum := n }, 0, 0⟩

/-- A session whose queue is not sorted by seqnum (front 10, back 5). -/
def sC5 : Session :=
  { Session.fresh 65535 with txq := [mkE 10, mkE 5] }

/-- An in-flight entry (sent at time 1) with a 1-byte payload. -/
def obRto : Outbound :=
  ⟨{ Packet.default0 with seqnum := 1, flags := FLAG_ACK, data := [7] }, 1, 1⟩

/-- A session holding `obRto` with an open remote window. -/
def sRto : Session :=
  { Session.fresh 65535 with
    window_remote := 65535
    txq := [obRto] }

/-- A REVIVE-flagged entry already sent at time 3. -/
def obRev : Outbound :=
  ⟨{ Packet.default0 with flags := FLAG_REVIVE ||| FLAG_ACK }, 3, 3⟩

/-- A session with `obRev` at the queue head and remote window 0. -/
def sRev : Session :=
  { Session.fresh 65535 with window_remote := 0, txq := [obRev] }

/-- A second setup packet used to re-establish mid-session (seqnum 5). -/
def setupB : Packet :=
  { Packet.default0 with seqnum := 5, window := 65535 }

/-- A state reached by queueing, re-establishing and queueing again; its
queue carries seqnums 101 and then 6. -/
def sBad : Session :=
  (((estA.queue_data [1] false).establish setupB).queue_data [2] false)

/-- A session with a REVIVE-free 2-byte entry, used by the C3 witness. -/
def sC3 : Session :=
  { Session.fresh 65535 with
    window_remote := 100
    txq := [⟨{ Packet.default0 with
               seqnum := 1
               flags := FLAG_ACK
               data := [1, 2] }, 0, 0⟩] }

/-- A never-sent REVIVE entry, used by the C4 witness. -/
def obRev0 : Outbound :=
  ⟨{ Packet.default0 with flags := FLAG_REVIVE ||| FLAG_ACK }, 0, 0⟩

/-- A session with `obRev0` queued and remote window 0. -/
def sRev0 : Session :=
  { Session.fresh 65535 with window_remote := 0, txq := [obRev0] }

/-! ### Loop-step abbreviations (used to state unfolding lemmas) -/

/-- The chunk size chosen by one `queue_data` loop iteration:
`std::min(\x7bavail == 0 ? MAX_PAY : avail, MAX_PAY, payload.size() - off\x7d)`. -/
def hereSize (payload : List Nat) (s : Session) (off : Nat) : Nat :=
  min (min (if s.window_remote_left = 0 then 1440 else s.window_remote_left) 1440)
    (payload.length - off)

/-- The packet built by one `queue_data` loop iteration. -/
def chunkPacket (payload : List Nat) (is_revive : Bool) (s : Session)
    (off here fo : Nat) : Packet :=
  { sid := s.sid, sttl := s.sttl_ms,
    flags := if off + here < payload.length then
        (if is_revive ∧ off = 0 then FLAG_ACK ||| FLAG_REVIVE else FLAG_ACK) |||
          FLAG_MOREBITS
      else if is_revive ∧ off = 0 then FLAG_ACK ||| FLAG_REVIVE else FLAG_ACK,
    seqnum := s.next_seq, acknum := s.last_rx_seq,
    window := s.local_window_left,
    fid := if 1440 < payload.length then s.next_fid else 0,
    fo := fo % 2 ^ 8,
    data := (payload.drop off).take here }

/-- The entry that the fragmentation loop, entered at absolute chunk
index `i` with current session `s`, appends for relative chunk `j`
(absolute index `i + j`): chunks advance by 1440 bytes while the window
stays open, seqnums are consecutive from `s.next_seq`. -/
def relEntry (s : Session) (payload : List Nat) (r : Bool) (i j : Nat) :
    Outbound :=
  ⟨{ sid := s.sid, sttl := s.sttl_ms,
     flags := if 1440 * (i + j) + 1440 < payload.length then
         (if r ∧ i + j = 0 then FLAG_ACK ||| FLAG_REVIVE else FLAG_ACK) |||
           FLAG_MOREBITS
       else if r ∧ i + j = 0 then FLAG_ACK ||| FLAG_REVIVE else FLAG_ACK,
     seqnum := (s.next_seq + j) % 2 ^ 32,
     acknum := s.last_rx_seq, window := s.local_window_left,
     fid := if 1440 < payload.length then s.next_fid else 0,
     fo := (i + j) % 2 ^ 8,
     data := (payload.drop (1440 * (i + j))).take 1440 }, 0, 0⟩

/-- The packets `queue_data` appends for a payload when the remote window
never closes: `ceil(L / 1440)` chunks from absolute index 0. -/
def fragOutput (s : Session) (payload : List Nat) : List Outbound :=
  (List.range ((payload.length + 1439) / 1440)).map (relEntry s payload false 0)

/-- The seqnums of the transmit queue, front to back. -/
def seqs (s : Session) : List Nat := s.txq.map (fun e => e.pkt.seqnum)

/-- The session-state invariant behind C10: queued seqnums strictly
increase front to back and stay below `next_seq`. -/
def InvS (s : Session) : Prop :=
  List.Pairwise (· < ·) (seqs s) ∧ ∀ x ∈ seqs s, x < s.next_seq

/-- A payload of 1441 bytes (two fragments), used by the C2 witness. -/
def payW : List Nat := List.replicate 1441 1

/-- A payload of 368641 bytes: 257 fragments, one more than the 8-bit
`fo` field can count.  Used by the C2 counterexample. -/
def payCE : List Nat := List.replicate 368641 1

/-! ### Little-endian helper lemmas -/

theorem shiftLeft_lor_eq {a b k : Nat} (h : b < 2 ^ k) :
    a <<< k ||| b = 2 ^ k * a + b := by
  rw [Nat.shiftLeft_eq, Nat.mul_comm, ← Nat.mul_add_lt_is_or h]

theorem lor_shiftLeft_eq {a b k : Nat} (h : a < 2 ^ k) :
    a ||| b <<< k = 2 ^ k * b + a := by
  rw [Nat.lor_comm, shiftLeft_lor_eq h]

theorem read32le_eq (b0 b1 b2 b3 : Nat) (r : List Nat)
    (h0 : b0 < 256) (h1 : b1 < 256) (h2 : b2 < 256) (h3 : b3 < 256) :
    read32le (b0 :: b1 :: b2 :: b3 :: r) =
      b0 + 2 ^ 8 * b1 + 2 ^ 16 * b2 + 2 ^ 24 * b3 := by
  have e1 : b0 ||| b1 <<< 8 = 2 ^ 8 * b1 + b0 := lor_shiftLeft_eq (by omega)
  have l1 : 2 ^ 8 * b1 + b0 < 2 ^ 16 := by omega
  have e2 : (2 ^ 8 * b1 + b0) ||| b2 <<< 16 = 2 ^ 16 * b2 + (2 ^ 8 * b1 + b0) :=
    lor_shiftLeft_eq l1
  have l2 : 2 ^ 16 * b2 + (2 ^ 8 * b1 + b0) < 2 ^ 24 := by omega
  have e3 : (2 ^ 16 * b2 + (2 ^ 8 * b1 + b0)) ||| b3 <<< 24 =
      2 ^ 24 * b3 + (2 ^ 16 * b2 + (2 ^ 8 * b1 + b0)) := lor_shiftLeft_eq l2
  simp only [read32le, List.getD_cons_zero, List.getD_cons_succ]
  rw [e1, e2, e3]
  omega

theorem read16le_eq (b0 b1 : Nat) (r : List Nat) (h0 : b0 < 256) :
    read16le (b0 :: b1 :: r) = b0 + 2 ^ 8 * b1 := by
  simp only [read16le, List.getD_cons_zero, List.getD_cons_succ]
  rw [lor_shiftLeft_eq (by omega)]
  omega

theorem read32le_append32le (x : Nat) (r : List Nat) (hx : x < 2 ^ 32) :
    read32le (append32le x ++ r) = x := by
  simp only [append32le, List.cons_append, List.nil_append]
  rw [read32le_eq _ _ _ _ _ (Nat.mod_lt _ (by omega)) (Nat.mod_lt _ (by omega))
    (Nat.mod_lt _ (by omega)) (Nat.mod_lt _ (by omega))]
  omega

theorem read16le_append16le (x : Nat) (r : List Nat) (hx : x < 2 ^ 16) :
    read16le (append16le x ++ r) = x := by
  simp only [append16le, List.cons_append, List.nil_append]
  rw [read16le_eq _ _ _ (Nat.mod_lt _ (by omega))]
  omega

theorem drop_append_ge {α : Type} (l1 l2 : List α) (n : Nat)
    (h : l1.length ≤ n) : (l1 ++ l2).drop n = l2.drop (n - l1.length) := by
  induction l1 generalizing n with
  | nil => simp
  | cons a t ih =>
    cases n with
    | zero => simp at h
    | succ m =>
      simp only [List.cons_append, List.drop_succ_cons, List.length_cons]
      rw [ih m (by simpa using h)]
      congr 1
      omega

/-! ### The sttl/flags packed word -/

theorem word_unpack (sttl flags : Nat) (hs : sttl < 2 ^ 27) (hf : flags < 2 ^ 5) :
    ((sttl &&& 0x07FFFFFF) <<< 5 ||| (flags &&& 0x1F)) >>> 5 = sttl ∧
    ((sttl &&& 0x07FFFFFF) <<< 5 ||| (flags &&& 0x1F)) &&& 0x1F = flags ∧
    (sttl &&& 0x07FFFFFF) <<< 5 ||| (flags &&& 0x1F) < 2 ^ 32 := by
  have hm : (0x07FFFFFF : Nat) = 2 ^ 27 - 1 := by norm_num
  have hm5 : (0x1F : Nat) = 2 ^ 5 - 1 := by norm_num
  have e1 : sttl &&& 0x07FFFFFF = sttl % 2 ^ 27 := by
    rw [hm, Nat.and_pow_two_sub_one_eq_mod]
  have e2 : flags &&& 0x1F = flags % 2 ^ 5 := by
    rw [hm5, Nat.and_pow_two_sub_one_eq_mod]
  have hf5 : flags % 2 ^ 5 < 2 ^ 5 := Nat.mod_lt _ (by omega)
  have ew : (sttl &&& 0x07FFFFFF) <<< 5 ||| (flags &&& 0x1F) =
      2 ^ 5 * (sttl % 2 ^ 27) + flags % 2 ^ 5 := by
    rw [e1, e2, shiftLeft_lor_eq hf5]
  refine ⟨?_, ?_, ?_⟩
  · rw [ew, Nat.shiftRight_eq_div_pow]
    omega
  · rw [ew, hm5, Nat.and_pow_two_sub_one_eq_mod]
    omega
  · rw [ew]
    omega

/-! ### C9: serialize failure condition and output length -/

/-- C9: `serialize` fails exactly when the payload exceeds 1440 bytes, and
a successful serialization has length exactly `32 + |data|`. -/
theorem c9_serialize_spec (p : Packet) (hsid : p.sid.length = 16) :
    (p.serialize = none ↔ 1440 < p.data.length) ∧
    p.serialize.map List.length =
      if 1440 < p.data.length then none else some (32 + p.data.length) := by
  unfold Packet.serialize
  by_cases h : 1440 < p.data.length
  · simp [h]
  · simp only [h, if_false, if_neg h, Option.map_some']
    constructor
    · simp
    · simp [append32le, append16le, hsid]
      omega

/-- Witness for C9 at a concrete packet. -/
theorem c9_witness :
    (Packet.default0.sid.length = 16) ∧
    ((Packet.default0.serialize = none ↔ 1440 < Packet.default0.data.length) ∧
      Packet.default0.serialize.map List.length =
        if 1440 < Packet.default0.data.length then none
        else some (32 + Packet.default0.data.length)) :=
  ⟨by decide, c9_serialize_spec Packet.default0 (by decide)⟩

/-! ### C1: codec round trip -/

/-- C1: for every valid packet whose payload fits in 1440 bytes,
deserializing the serialization gives back the packet in every field. -/
theorem c1_roundtrip (p : Packet) (hv : p.Valid) (hd : p.data.length ≤ 1440) :
    p.serialize.bind Packet.deserialize = some p := by
  obtain ⟨hsid, hsttl, hflags, hseq, hack, hwin, hfid, hfo⟩ := hv
  obtain ⟨hw1, hw2, hw3⟩ := word_unpack p.sttl p.flags hsttl hflags
  have hser : p.serialize = some (p.sid ++
      append32le ((p.sttl &&& 0x07FFFFFF) <<< 5 ||| (p.flags &&& 0x1F)) ++
      append32le p.seqnum ++ append32le p.acknum ++ append16le p.window ++
      [p.fid, p.fo] ++ p.data) := by
    unfold Packet.serialize
    rw [if_neg (by omega)]
  rw [hser]
  set w := (p.sttl &&& 0x07FFFFFF) <<< 5 ||| (p.flags &&& 0x1F) with hw
  set bs := p.sid ++ append32le w ++ append32le p.seqnum ++ append32le p.acknum ++
    append16le p.window ++ [p.fid, p.fo] ++ p.data with hbs
  have hassoc : bs = p.sid ++ (append32le w ++ (append32le p.seqnum ++
      (append32le p.acknum ++ (append16le p.window ++
        (p.fid :: p.fo :: p.data))))) := by
    simp [hbs, List.append_assoc]
  have hlen : bs.length = 32 + p.data.length := by
    rw [hassoc]
    simp [append32le, append16le, hsid]
    omega
  have h16 : bs.drop 16 = append32le w ++ (append32le p.seqnum ++
      (append32le p.acknum ++ (append16le p.window ++
        (p.fid :: p.fo :: p.data)))) := by
    rw [hassoc, drop_append_ge _ _ 16 (by omega)]
    simp [hsid]
  have hdrop : ∀ k, 16 ≤ k → bs.drop k = (append32le w ++ (append32le p.seqnum ++
      (append32le p.acknum ++ (append16le p.window ++
        (p.fid :: p.fo :: p.data))))).drop (k - 16) := by
    intro k hk
    rw [hassoc, drop_append_ge _ _ k (by omega), hsid]
  have h20 : bs.drop 20 = append32le p.seqnum ++
      (append32le p.acknum ++ (append16le p.window ++ (p.fid :: p.fo :: p.data))) := by
    rw [hdrop 20 (by omega)]
    simp [append32le]
  have h24 : bs.drop 24 = append32le p.acknum ++
      (append16le p.window ++ (p.fid :: p.fo :: p.data)) := by
    rw [hdrop 24 (by omega)]
    simp [append32le]
  have h28 : bs.drop 28 = append16le p.window ++ (p.fid :: p.fo :: p.data) := by
    rw [hdrop 28 (by omega)]
    simp [append32le]
  have h30 : bs.drop 30 = p.fid :: p.fo :: p.data := by
    rw [hdrop 30 (by omega)]
    simp [append32le, append16le]
  have h31 : bs.drop 31 = p.fo :: p.data := by
    rw [hdrop 31 (by omega)]
    simp [append32le, append16le]
  have h32 : bs.drop 32 = p.data := by
    rw [hdrop 32 (by omega)]
    simp [append32le, append16le]
  have htake : bs.take 16 = p.sid := by
    rw [hassoc]
    exact List.take_left' hsid
  simp only [Option.some_bind]
  unfold Packet.deserialize
  rw [if_neg (by omega)]
  simp only [Option.some.injEq]
  rw [h16, h20, h24, h28, h30, h31, h32, htake]
  have hrw : read32le (append32le w ++ (append32le p.seqnum ++
      (append32le p.acknum ++ (append16le p.window ++
        (p.fid :: p.fo :: p.data))))) = w := read32le_append32le _ _ hw3
  cases p
  simp only [Packet.mk.injEq]
  refine ⟨by trivial, ?_, ?_, ?_, ?_, ?_, ?_, ?_, by trivial⟩
  · rw [hrw]; exact hw1
  · rw [hrw]; exact hw2
  · exact read32le_append32le _ _ hseq
  · exact read32le_append32le _ _ hack
  · exact read16le_append16le _ _ hwin
  · simp
  · simp

/-- Witness for C1 at a concrete packet. -/
theorem c1_witness :
    pkt0.Valid ∧ pkt0.data.length ≤ 1440 ∧
    pkt0.serialize.bind Packet.deserialize = some pkt0 :=
  ⟨by decide, by decide, c1_roundtrip pkt0 (by decide) (by decide)⟩

/-! ### Scheduler lemmas -/

theorem ready_go_nil (now rto b : Nat) : ready_go now rto [] b = [] := rfl

theorem ready_go_cons (now rto : Nat) (ob : Outbound) (rest : List Outbound)
    (b : Nat) :
    ready_go now rto (ob :: rest) b =
      if ¬ob.first_sent = 0 ∧ ¬(¬ob.first_sent = 0 ∧ rto < now - ob.last_sent)
      then ready_go now rto rest b
      else if ob.pkt.flags &&& FLAG_REVIVE ≠ 0 then
        ob :: ready_go now rto rest b
      else if ob.pkt.data.length ≤ b then
        ob :: ready_go now rto rest (b - ob.pkt.data.length)
      else [] := rfl

theorem ready_go_subset (now rto : Nat) :
    ∀ (l : List Outbound) (b : Nat), ∀ e ∈ ready_go now rto l b, e ∈ l := by
  intro l
  induction l with
  | nil => intro b e he; simp [ready_go_nil] at he
  | cons ob rest ih =>
    intro b e he
    rw [ready_go_cons] at he
    split at he
    · exact List.mem_cons_of_mem _ (ih b e he)
    · split at he
      · rcases List.mem_cons.1 he with h | h
        · exact h ▸ List.mem_cons_self _ _
        · exact List.mem_cons_of_mem _ (ih b e h)
      · split at he
        · rcases List.mem_cons.1 he with h | h
          · exact h ▸ List.mem_cons_self _ _
          · exact List.mem_cons_of_mem _ (ih _ e h)
        · simp at he

theorem ready_go_sum (now rto : Nat) :
    ∀ (l : List Outbound) (b : Nat),
      (∀ e ∈ l, e.pkt.flags &&& FLAG_REVIVE = 0) →
      ((ready_go now rto l b).map (fun e => e.pkt.data.length)).sum ≤ b := by
  intro l
  induction l with
  | nil => intro b h; simp [ready_go_nil]
  | cons ob rest ih =>
    intro b h
    have hob := h ob (List.mem_cons_self _ _)
    have hrest : ∀ e ∈ rest, e.pkt.flags &&& FLAG_REVIVE = 0 :=
      fun e he => h e (List.mem_cons_of_mem _ he)
    rw [ready_go_cons]
    split
    · exact ih b hrest
    · rw [if_neg (by simp [hob])]
      by_cases h2 : ob.pkt.data.length ≤ b
      · rw [if_pos h2]
        simp only [List.map_cons, List.sum_cons]
        have := ih (b - ob.pkt.data.length) hrest
        omega
      · rw [if_neg h2]
        simp

theorem window_remote_left_le (s : Session) :
    s.window_remote_left ≤ s.window_remote := by
  unfold Session.window_remote_left
  split <;> omega

/-! ### C3: the scheduler respects the remote window -/

/-- C3: with no REVIVE entry queued and remote window `W`, the batch
returned by `ready_to_send` carries at most `W` payload bytes in total. -/
theorem c3_scheduler_window (s : Session) (rto now W : Nat)
    (hrev : ∀ e ∈ s.txq, e.pkt.flags &&& FLAG_REVIVE = 0)
    (hW : s.window_remote = W) :
    ((s.ready_to_send rto now).map (fun e => e.pkt.data.length)).sum ≤ W := by
  have h := ready_go_sum now rto s.txq s.window_remote_left hrev
  have hle : s.window_remote_left ≤ W := hW ▸ window_remote_left_le s
  exact le_trans h hle

/-- Witness for C3 at a concrete session. -/
theorem c3_witness :
    (∀ e ∈ sC3.txq, e.pkt.flags &&& FLAG_REVIVE = 0) ∧
    ((sC3.ready_to_send 800 5).map (fun e => e.pkt.data.length)).sum ≤ 100 :=
  ⟨by decide, c3_scheduler_window sC3 800 5 100 (by decide) (by decide)⟩

/-! ### C4: REVIVE bypasses the window gate -/

/-- C4 (amended): an eligible REVIVE entry at the queue head — never sent,
or timed out — is in the batch, whatever the remote window (including 0).
-/
theorem c4_revive_bypass (s : Session) (rto now : Nat) (ob : Outbound)
    (rest : List Outbound) (hq : s.txq = ob :: rest)
    (hrev : ob.pkt.flags &&& FLAG_REVIVE ≠ 0)
    (helig : ob.first_sent = 0 ∨ rto < now - ob.last_sent) :
    ob ∈ s.ready_to_send rto now := by
  unfold Session.ready_to_send
  rw [hq, ready_go_cons, if_neg (by tauto), if_pos hrev]
  exact List.mem_cons_self _ _

/-- C4 counterexample: a REVIVE entry at the head that is in flight and
not yet timed out (sent at 3, polled at 4 with rto 100) is not returned,
although the claim requires it for every session state. -/
theorem c4_counterexample :
    sRev.txq.head? = some obRev ∧ obRev.pkt.flags &&& FLAG_REVIVE ≠ 0 ∧
    sRev.window_remote = 0 ∧ obRev ∉ sRev.ready_to_send 100 4 := by decide

/-- Witness for C4 at a concrete session with a never-sent REVIVE head. -/
theorem c4_witness :
    obRev0.pkt.flags &&& FLAG_REVIVE ≠ 0 ∧ sRev0.window_remote = 0 ∧
    obRev0 ∈ sRev0.ready_to_send 100 4 :=
  ⟨by decide, by decide,
    c4_revive_bypass sRev0 100 4 obRev0 [] (by decide) (by decide)
      (Or.inl (by decide))⟩

/-! ### C6: retransmission timing -/

/-- C6 (amended): for an in-flight head entry last sent at `t0`, a call at
`now ≤ t0 + rto` skips it (the batch is computed from the rest of the
queue, so the entry is absent unless duplicated there), while a call at
`now > t0 + rto` — note the strict inequality of the code — returns it at
the head of the batch, provided the admission gate passes (REVIVE or
payload within the window budget). -/
theorem c6_rto_boundary (s : Session) (rto now t0 : Nat) (ob : Outbound)
    (rest : List Outbound) (hq : s.txq = ob :: rest)
    (hfs : ob.first_sent ≠ 0) (hls : ob.last_sent = t0) :
    (now ≤ t0 + rto →
      s.ready_to_send rto now = ready_go now rto rest s.window_remote_left) ∧
    (now ≤ t0 + rto → ob ∉ rest → ob ∉ s.ready_to_send rto now) ∧
    (t0 + rto < now →
      (ob.pkt.flags &&& FLAG_REVIVE ≠ 0 ∨
        ob.pkt.data.length ≤ s.window_remote_left) →
      (s.ready_to_send rto now).head? = some ob) := by
  refine ⟨?_, ?_, ?_⟩
  · intro hle
    unfold Session.ready_to_send
    rw [hq, ready_go_cons, if_pos ⟨hfs, by omega⟩]
  · intro hle hnm hmem
    unfold Session.ready_to_send at hmem
    rw [hq, ready_go_cons, if_pos ⟨hfs, by omega⟩] at hmem
    exact hnm (ready_go_subset now rto rest _ ob hmem)
  · intro hgt hadm
    unfold Session.ready_to_send
    have hto : ¬(¬ob.first_sent = 0 ∧
        ¬(¬ob.first_sent = 0 ∧ rto < now - ob.last_sent)) := by
      intro hc
      exact hc.2 ⟨hfs, by omega⟩
    rw [hq, ready_go_cons, if_neg hto]
    by_cases hr : ob.pkt.flags &&& FLAG_REVIVE ≠ 0
    · rw [if_pos hr]
      rfl
    · rcases hadm with h | h
      · exact absurd h hr
      · rw [if_neg hr, if_pos h]
        rfl

/-- C6 counterexample: an entry sent at `t0 = 1` with `rto = 10` is not
returned at `now = 11 = t0 + rto`, although the claim requires
eligibility at every `t ≥ t0 + rto`. -/
theorem c6_counterexample :
    obRto.first_sent ≠ 0 ∧ obRto.last_sent = 1 ∧ (1 : Nat) + 10 ≤ 11 ∧
    obRto ∉ sRto.ready_to_send 10 11 := by decide

/-- Witness for C6 at a concrete session. -/
theorem c6_witness :
    (12 ≤ 1 + 10 →
      sRto.ready_to_send 10 12 = ready_go 12 10 [] sRto.window_remote_left) ∧
    (12 ≤ 1 + 10 → obRto ∉ ([] : List Outbound) →
      obRto ∉ sRto.ready_to_send 10 12) ∧
    (1 + 10 < 12 →
      (obRto.pkt.flags &&& FLAG_REVIVE ≠ 0 ∨
        obRto.pkt.data.length ≤ sRto.window_remote_left) →
      (sRto.ready_to_send 10 12).head? = some obRto) :=
  c6_rto_boundary sRto 10 12 1 obRto [] (by decide) (by decide) (by decide)

/-! ### C5: cumulative ACK drains the queue -/

theorem dropWhile_ack_eq_filter (a : Nat) :
    ∀ l : List Outbound,
      List.Pairwise (fun x y => x.pkt.seqnum ≤ y.pkt.seqnum) l →
      l.dropWhile (fun o => o.pkt.seqnum ≤ a) =
        l.filter (fun o => decide (a < o.pkt.seqnum)) := by
  intro l
  induction l with
  | nil => intro _; rfl
  | cons x xs ih =>
    intro hp
    rcases List.pairwise_cons.1 hp with ⟨hx, hxs⟩
    by_cases hxa : x.pkt.seqnum ≤ a
    · rw [List.dropWhile_cons_of_pos (by simpa using hxa),
        List.filter_cons_of_neg (by simpa using hxa)]
      exact ih hxs
    · rw [List.dropWhile_cons_of_neg (by simpa using hxa),
        List.filter_cons_of_pos (by simpa using hxa)]
      rw [List.filter_eq_self.2]
      intro e he
      have := hx e he
      simp only [decide_eq_true_eq]
      omega

/-- C5 (amended): when the transmit queue is sorted by seqnum — the shape
the session invariant guarantees — `handle_ack a w t` leaves no entry with
`seqnum ≤ a`, overwrites `last_ack_rcvd` with `a` unconditionally, and
adopts the peer window and sttl. -/
theorem c5_handle_ack_drains (s : Session) (a w t : Nat)
    (hsort : List.Pairwise (fun x y => x.pkt.seqnum ≤ y.pkt.seqnum) s.txq) :
    (s.handle_ack a w t).last_ack_rcvd = a ∧
    (s.handle_ack a w t).window_remote = w ∧
    (s.handle_ack a w t).sttl_ms = t ∧
    ∀ e ∈ (s.handle_ack a w t).txq, ¬e.pkt.seqnum ≤ a := by
  refine ⟨rfl, rfl, rfl, ?_⟩
  intro e he
  unfold Session.handle_ack at he
  simp only at he
  rw [dropWhile_ack_eq_filter a s.txq hsort] at he
  have := List.of_mem_filter he
  simp only [decide_eq_true_eq] at this
  omega

/-- C5 counterexample: on an unsorted queue (seqnums 10 then 5) the
front-only popping of `handle_ack 5` leaves the entry with seqnum 5 in the
queue, refuting the claim read over every session state. -/
theorem c5_counterexample :
    ¬((sC5.handle_ack 5 7 3).last_ack_rcvd = 5 ∧
      (sC5.handle_ack 5 7 3).window_remote = 7 ∧
      (sC5.handle_ack 5 7 3).sttl_ms = 3 ∧
      ∀ e ∈ (sC5.handle_ack 5 7 3).txq, ¬e.pkt.seqnum ≤ 5) := by decide

/-- Witness for C5 on a concrete sorted queue. -/
theorem c5_witness :
    (sC3.handle_ack 1 7 3).last_ack_rcvd = 1 ∧
    (sC3.handle_ack 1 7 3).window_remote = 7 ∧
    (sC3.handle_ack 1 7 3).sttl_ms = 3 ∧
    ∀ e ∈ (sC3.handle_ack 1 7 3).txq, ¬e.pkt.seqnum ≤ 1 :=
  c5_handle_ack_drains sC3 1 7 3 (by decide)

/-! ### Queue-data loop unfolding -/

theorem hereSize_pos (payload : List Nat) (s : Session) (off : Nat)
    (h : off < payload.length) : 1 ≤ hereSize payload s off := by
  have hb : 1 ≤ payload.length - off := by omega
  unfold hereSize
  rcases Nat.eq_zero_or_pos s.window_remote_left with h0 | h0
  · rw [h0, if_pos rfl]
    exact Nat.le_min.mpr ⟨Nat.le_min.mpr ⟨by omega, by omega⟩, hb⟩
  · rw [if_neg (by omega)]
    exact Nat.le_min.mpr ⟨Nat.le_min.mpr ⟨h0, by omega⟩, hb⟩

theorem queue_data_go_end (payload : List Nat) (r : Bool) (s : Session)
    (fuel off fo : Nat) (h : ¬off < payload.length) :
    Session.queue_data_go payload r (fuel + 1) s off fo = s := by
  rw [Session.queue_data_go, if_neg h]

theorem queue_data_go_step (payload : List Nat) (r : Bool) (s : Session)
    (fuel off fo : Nat) (h : off < payload.length) :
    Session.queue_data_go payload r (fuel + 1) s off fo =
      if s.window_remote_left = 0 ∧ s.txq ≠ [] then s
      else
        Session.queue_data_go payload r fuel
          { s with
            next_seq := (s.next_seq + 1) % 2 ^ 32
            txq := s.txq ++
              [⟨chunkPacket payload r s off (hereSize payload s off) fo, 0, 0⟩] }
          (off + hereSize payload s off) (fo + 1) := by
  rw [Session.queue_data_go, if_pos h]
  rfl

/-- The loop result does not depend on the fuel once the fuel exceeds the
number of payload bytes still to place. -/
theorem queue_data_go_fuel (payload : List Nat) (r : Bool) :
    ∀ (f1 : Nat) (f2 : Nat) (s : Session) (off fo : Nat),
      payload.length - off < f1 → payload.length - off < f2 →
      Session.queue_data_go payload r f1 s off fo =
        Session.queue_data_go payload r f2 s off fo := by
  intro f1
  induction f1 with
  | zero => intro f2 s off fo h1 h2; omega
  | succ m ih =>
    intro f2 s off fo h1 h2
    cases f2 with
    | zero => omega
    | succ n =>
      by_cases hlt : off < payload.length
      · rw [queue_data_go_step payload r s m off fo hlt,
          queue_data_go_step payload r s n off fo hlt]
        split
        · rfl
        · have hp := hereSize_pos payload s off hlt
          exact ih n _ _ _ (by omega) (by omega)
      · rw [queue_data_go_end payload r s m off fo hlt,
          queue_data_go_end payload r s n off fo hlt]

/-! ### C8: single-packet payloads -/

/-- C8 (amended): when the payload (`0 < L ≤ 1440`) fits the remaining
remote window — or the window is exhausted but nothing is queued, the case
in which the loop falls back to `MAX_PAY` chunks — `queue_data` appends
exactly one packet, with `fid = 0` and MOREBITS clear (`flags = ACK`). -/
theorem c8_single_packet (s : Session) (payload : List Nat)
    (hpos : 0 < payload.length) (hle : payload.length ≤ 1440)
    (hwin : payload.length ≤ s.window_remote_left ∨
      (s.window_remote_left = 0 ∧ s.txq = [])) :
    (s.queue_data payload false).txq = s.txq ++
      [⟨{ sid := s.sid, sttl := s.sttl_ms, flags := FLAG_ACK,
          seqnum := s.next_seq, acknum := s.last_rx_seq,
          window := s.local_window_left, fid := 0, fo := 0,
          data := payload }, 0, 0⟩] := by
  unfold Session.queue_data
  rw [if_neg (by simp), if_neg (by omega)]
  have hhere : hereSize payload s 0 = payload.length := by
    unfold hereSize
    rcases hwin with h | ⟨h0, -⟩
    · rw [if_neg (by omega)]
      omega
    · rw [h0, if_pos rfl]
      omega
  have hstop : ¬(s.window_remote_left = 0 ∧ s.txq ≠ []) := by
    rcases hwin with h | ⟨h0, he⟩
    · rintro ⟨hz, -⟩
      omega
    · rintro ⟨-, hne'⟩
      exact hne' he
  rw [queue_data_go_step payload false s payload.length 0 0 hpos, if_neg hstop]
  obtain ⟨m, hm⟩ : ∃ m, payload.length = m + 1 := ⟨payload.length - 1, by omega⟩
  rw [hm, queue_data_go_end payload false _ _ _ _ (by rw [hhere]; omega)]
  have hpkt : chunkPacket payload false s 0 (hereSize payload s 0) 0 =
      { sid := s.sid, sttl := s.sttl_ms, flags := FLAG_ACK,
        seqnum := s.next_seq, acknum := s.last_rx_seq,
        window := s.local_window_left, fid := 0, fo := 0,
        data := payload } := by
    unfold chunkPacket
    rw [hhere]
    congr 1
    · rw [if_neg (by omega), if_neg (by simp)]
    · rw [if_neg (by omega)]
    · simp
  rw [hpkt]

/-- C8 counterexample: with remote window 2 a 5-byte payload is split into
three packets and the first has MOREBITS set, refuting the claim that a
payload of `L ≤ 1440` always yields a single MOREBITS-free packet. -/
theorem c8_counterexample :
    ¬((estW2.queue_data [9, 9, 9, 9, 9] false).txq.length =
        estW2.txq.length + 1 ∧
      ∀ e ∈ (estW2.queue_data [9, 9, 9, 9, 9] false).txq,
        e.pkt.fid = 0 ∧ e.pkt.flags &&& FLAG_MOREBITS = 0) := by decide

/-- Witness for C8 on a freshly established session with full window. -/
theorem c8_witness :
    (estA.queue_data [1, 2, 3] false).txq = estA.txq ++
      [⟨{ sid := estA.sid, sttl := estA.sttl_ms, flags := FLAG_ACK,
          seqnum := estA.next_seq, acknum := estA.last_rx_seq,
          window := estA.local_window_left, fid := 0, fo := 0,
          data := [1, 2, 3] }, 0, 0⟩] :=
  c8_single_packet estA [1, 2, 3] (by decide) (by decide)
    (Or.inl (by decide))

/-! ### C7: disconnect initiation and confirmation -/

/-- C7 (amended): the disconnect packet is not queued and `take_seq`
leaves `last_ack_rcvd` untouched — the disconnect seqnum is recorded
nowhere in the session.  The driver's confirmation test compares the
inbound seqnum against `last_ack()`, which `handle_ack` has just set to
the inbound packet's own acknum, so while waiting it reduces to: ACK flag
set and `seqnum == acknum` on the inbound packet. -/
theorem c7_disconnect_semantics (s : Session) (pk : Packet) :
    (drive_disconnect s).2.txq = s.txq ∧
    (drive_disconnect s).2.last_ack_rcvd = s.last_ack_rcvd ∧
    (drive_disconnect s).1.seqnum = s.next_seq ∧
    dc_confirmed s true pk =
      ((pk.flags &&& FLAG_ACK != 0) && (pk.seqnum == pk.acknum)) := by
  refine ⟨rfl, rfl, rfl, ?_⟩
  unfold dc_confirmed drive_rx
  by_cases h : pk.flags &&& FLAG_ACK ≠ 0
  · rw [if_pos h]
    have hb : (pk.flags &&& FLAG_ACK != 0) = true := by
      simpa [bne_iff_ne] using h
    simp [hb, Session.handle_ack]
  · have hb : (pk.flags &&& FLAG_ACK != 0) = false := by
      simpa [bne_iff_ne] using h
    rw [if_neg h]
    simp [hb]

/-- C7 counterexample: after the disconnect step the session's
`last_ack_rcvd` still holds its old value (0), not the disconnect seqnum
(101), refuting "its seqnum is recorded as the session's last_ack". -/
theorem c7_counterexample :
    ¬((drive_disconnect estA).2.txq = estA.txq ∧
      (drive_disconnect estA).2.last_ack_rcvd =
        (drive_disconnect estA).1.seqnum) := by decide

/-! ### Consecutive seqnums appended by queue_data (arbitrary window) -/

theorem consec_append (a k : Nat) (l : List Nat) :
    (l ++ [a]) ++ (List.range k).map (fun j => a + 1 + j) =
      l ++ (List.range (k + 1)).map (fun j => a + j) := by
  rw [List.append_assoc, List.singleton_append, List.range_succ_eq_map,
    List.map_cons, List.map_map]
  congr 1
  congr 1
  apply List.map_congr_left
  intro j hj
  simp only [Function.comp_apply, Nat.succ_eq_add_one]
  omega

/-- Whatever the window state, the fragmentation loop only appends
entries, their seqnums are consecutive from `s.next_seq`, and `next_seq`
advances by the number of appended entries — provided the sequence space
does not wrap. -/
theorem queue_go_seqs (payload : List Nat) (r : Bool) :
    ∀ (fuel : Nat) (s : Session) (off fo : Nat),
      s.next_seq + (payload.length - off) < 2 ^ 32 →
      ∃ k, k ≤ payload.length - off ∧
        seqs (Session.queue_data_go payload r fuel s off fo) =
          seqs s ++ (List.range k).map (fun j => s.next_seq + j) ∧
        (Session.queue_data_go payload r fuel s off fo).next_seq =
          s.next_seq + k := by
  intro fuel
  induction fuel with
  | zero =>
    intro s off fo h
    exact ⟨0, by omega, by simp [Session.queue_data_go], by
      simp [Session.queue_data_go]⟩
  | succ m ih =>
    intro s off fo h
    by_cases hlt : off < payload.length
    · rw [queue_data_go_step payload r s m off fo hlt]
      by_cases hstop : s.window_remote_left = 0 ∧ s.txq ≠ []
      · rw [if_pos hstop]
        exact ⟨0, by omega, by simp, by omega⟩
      · rw [if_neg hstop]
        have hp := hereSize_pos payload s off hlt
        have hmod : (s.next_seq + 1) % 2 ^ 32 = s.next_seq + 1 :=
          Nat.mod_eq_of_lt (by omega)
        obtain ⟨k, hk, hmap, hns⟩ := ih
          { s with
            next_seq := (s.next_seq + 1) % 2 ^ 32
            txq := s.txq ++
              [⟨chunkPacket payload r s off (hereSize payload s off) fo, 0, 0⟩] }
          (off + hereSize payload s off) (fo + 1) (by
            dsimp only
            rw [hmod]
            omega)
        dsimp only at hmap hns
        rw [hmod] at hmap hns
        refine ⟨k + 1, by omega, ?_, ?_⟩
        · rw [hmod, hmap]
          have hs' : seqs
              { s with
                next_seq := s.next_seq + 1
                txq := s.txq ++
                  [⟨chunkPacket payload r s off (hereSize payload s off) fo,
                    0, 0⟩] } = seqs s ++ [s.next_seq] := by
            simp [seqs, chunkPacket]
          rw [hs']
          exact consec_append s.next_seq k (seqs s)
        · rw [hmod, hns]
          omega
    · rw [queue_data_go_end payload r s m off fo hlt]
      exact ⟨0, by omega, by simp, by omega⟩

/-- `queue_data` appends entries with consecutive seqnums from
`s.next_seq` and advances `next_seq` accordingly (no-wraparound case). -/
theorem queue_data_seqs (s : Session) (payload : List Nat) (r : Bool)
    (h : s.next_seq + payload.length + 1 < 2 ^ 32) :
    ∃ k, seqs (s.queue_data payload r) =
        seqs s ++ (List.range k).map (fun j => s.next_seq + j) ∧
      (s.queue_data payload r).next_seq = s.next_seq + k := by
  unfold Session.queue_data
  by_cases hre : payload = [] ∧ r = true
  · rw [if_pos hre]
    refine ⟨1, ?_, ?_⟩
    · simp [seqs, List.range_succ]
    · dsimp only
      omega
  · rw [if_neg hre]
    obtain ⟨k, hk, hmap, hns⟩ :=
      queue_go_seqs payload r (payload.length + 1) s 0 0 (by omega)
    by_cases hbig : 1440 < payload.length
    · rw [if_pos hbig]
      exact ⟨k, by simpa [seqs] using hmap, by simpa using hns⟩
    · rw [if_neg hbig]
      exact ⟨k, hmap, hns⟩

theorem mark_sent_next_seq (s : Session) (i now : Nat) :
    (s.mark_sent i now).next_seq = s.next_seq := by
  unfold Session.mark_sent
  cases s.txq[i]? <;> rfl

theorem seqs_mark_sent (s : Session) (i now : Nat) :
    seqs (s.mark_sent i now) = seqs s := by
  unfold Session.mark_sent
  cases hio : s.txq[i]? with
  | none => rfl
  | some o =>
    simp only [seqs, List.map_set]
    have : (s.txq.map (fun e => e.pkt.seqnum))[i]? = some o.pkt.seqnum := by
      rw [List.getElem?_map, hio]
      rfl
    calc (s.txq.map (fun e => e.pkt.seqnum)).set i o.pkt.seqnum
        = (s.txq.map (fun e => e.pkt.seqnum)).set i o.pkt.seqnum := rfl
      _ = s.txq.map (fun e => e.pkt.seqnum) := by
          apply List.ext_getElem?
          intro n
          by_cases hn : n = i
          · subst hn
            rw [List.getElem?_set_self', this]
            simp
          · rw [List.getElem?_set_ne (by omega)]

/-- The strict front-to-back seqnum ordering is an invariant of the
no-wraparound reachable states. -/
theorem reachesA_inv (s : Session) (h : ReachesA s) : InvS s := by
  induction h with
  | base w setup =>
    constructor <;> simp [seqs, Session.establish, Session.fresh]
  | queue s payload r hr hnw ih =>
    obtain ⟨k, hmap, hns⟩ := queue_data_seqs s payload r hnw
    constructor
    · rw [hmap]
      rw [List.pairwise_append]
      refine ⟨ih.1, ?_, ?_⟩
      · refine List.Pairwise.map _ (fun a b hab => by omega)
          (List.pairwise_lt_range k)
      · intro x hx y hy
        have hxlt := ih.2 x hx
        rcases List.mem_map.1 hy with ⟨j, hj, rfl⟩
        omega
    · intro x hx
      rw [hmap] at hx
      rw [hns]
      rcases List.mem_append.1 hx with hx | hx
      · have := ih.2 x hx
        omega
      · rcases List.mem_map.1 hx with ⟨j, hj, rfl⟩
        have := List.mem_range.1 hj
        omega
  | hack s a w t hr ih =>
    have hsub : (s.handle_ack a w t).txq.Sublist s.txq :=
      List.dropWhile_sublist _
    constructor
    · exact List.Pairwise.sublist (List.Sublist.map _ hsub) ih.1
    · intro x hx
      have : x ∈ seqs s := by
        rcases List.mem_map.1 hx with ⟨e, he, rfl⟩
        exact List.mem_map.2 ⟨e, hsub.subset he, rfl⟩
      exact ih.2 x this
  | mark s i now hr ih =>
    constructor
    · rw [seqs_mark_sent]
      exact ih.1
    · intro x hx
      rw [seqs_mark_sent] at hx
      rw [mark_sent_next_seq]
      exact ih.2 x hx
  | tseq s hr hnw ih =>
    constructor
    · exact ih.1
    · intro x hx
      have h1 := ih.2 x hx
      have : (s.take_seq.2).next_seq = s.next_seq + 1 := by
        simp only [Session.take_seq]
        omega
      omega

/-! ### C10: the queue stays sorted and handle_ack removes a prefix -/

/-- C10 (amended): in every state reachable from a freshly established
session by `queue_data`, `handle_ack`, `mark_sent` and `take_seq` — with
`establish` used only initially and no seqnum wraparound — the queued
seqnums strictly increase front to back, and consequently `handle_ack`'s
front-only popping removes exactly the entries with `seqnum ≤ acknum`. -/
theorem c10_queue_sorted (s : Session) (h : ReachesA s) :
    List.Pairwise (· < ·) (seqs s) ∧
    ∀ a w t : Nat, (s.handle_ack a w t).txq =
      s.txq.filter (fun e => decide (a < e.pkt.seqnum)) := by
  have hinv := reachesA_inv s h
  refine ⟨hinv.1, ?_⟩
  intro a w t
  have hple : List.Pairwise (fun x y : Outbound =>
      x.pkt.seqnum ≤ y.pkt.seqnum) s.txq := by
    have h1 : List.Pairwise (· < ·)
        (s.txq.map (fun e => e.pkt.seqnum)) := hinv.1
    exact (List.pairwise_map.1 h1).imp (fun hab => Nat.le_of_lt hab)
  show s.txq.dropWhile (fun o => o.pkt.seqnum ≤ a) = _
  exact dropWhile_ack_eq_filter a s.txq hple

/-- Witness for C10 at a freshly established session. -/
theorem c10_witness :
    List.Pairwise (· < ·) (seqs ((Session.fresh 65535).establish pkt0)) ∧
    ∀ a w t : Nat,
      (((Session.fresh 65535).establish pkt0).handle_ack a w t).txq =
        ((Session.fresh 65535).establish pkt0).txq.filter
          (fun e => decide (a < e.pkt.seqnum)) :=
  c10_queue_sorted _ (ReachesA.base 65535 pkt0)

/-- C10 counterexample: re-establishing mid-session (allowed by the claim,
which lists `establish` among the operations) resets `next_seq`, and a
later `queue_data` appends seqnum 6 behind seqnum 101 — the reachable
state `sBad` violates the strict ordering. -/
theorem c10_counterexample :
    ReachesO sBad ∧ ¬List.Pairwise (· < ·) (seqs sBad) := by
  constructor
  · show ReachesO (((estA.queue_data [1] false).establish setupB).queue_data
      [2] false)
    exact ReachesO.queue _ [2] false
      (ReachesO.estab _ setupB
        (ReachesO.queue _ [1] false
          (ReachesO.base 65535
            { Packet.default0 with seqnum := 100, window := 65535 })))
  · decide

/-! ### Open-window fragmentation: closed form (C2) -/

theorem wrl_append_unsent (s : Session) (n : Nat) (q : Outbound)
    (hq : q.last_sent = 0) :
    Session.window_remote_left
      { s with next_seq := n, txq := s.txq ++ [q] } =
      s.window_remote_left := by
  unfold Session.window_remote_left Session.in_flight
  simp [List.filter_append, hq]

theorem chunk_eq_relEntry (s : Session) (payload : List Nat) (r : Bool)
    (i here : Nat) (hns : s.next_seq < 2 ^ 32)
    (hh : here = min 1440 (payload.length - 1440 * i))
    (hlt : 1440 * i < payload.length) :
    (⟨chunkPacket payload r s (1440 * i) here i, 0, 0⟩ : Outbound) =
      relEntry s payload r i 0 := by
  have hiff1 : 1440 * i + here < payload.length ↔
      1440 * i + 1440 < payload.length := by
    rcases Nat.le_total (payload.length - 1440 * i) 1440 with hc | hc
    · rw [hh, Nat.min_eq_right hc]
      omega
    · rw [hh, Nat.min_eq_left (by omega)]
  have hiff2 : (r = true ∧ 1440 * i = 0) ↔ (r = true ∧ i = 0) := by
    constructor
    · rintro ⟨hr, h0⟩
      exact ⟨hr, by omega⟩
    · rintro ⟨hr, h0⟩
      exact ⟨hr, by omega⟩
  have hflags : (if 1440 * i + here < payload.length then
        (if r = true ∧ 1440 * i = 0 then FLAG_ACK ||| FLAG_REVIVE
          else FLAG_ACK) ||| FLAG_MOREBITS
      else if r = true ∧ 1440 * i = 0 then FLAG_ACK ||| FLAG_REVIVE
        else FLAG_ACK) =
      (if 1440 * i + 1440 < payload.length then
        (if r = true ∧ i = 0 then FLAG_ACK ||| FLAG_REVIVE
          else FLAG_ACK) ||| FLAG_MOREBITS
      else if r = true ∧ i = 0 then FLAG_ACK ||| FLAG_REVIVE
        else FLAG_ACK) :=
    if_congr hiff1
      (congrArg (fun t => t ||| FLAG_MOREBITS) (if_congr hiff2 rfl rfl))
      (if_congr hiff2 rfl rfl)
  have hdata : (payload.drop (1440 * i)).take here =
      (payload.drop (1440 * i)).take 1440 := by
    rcases Nat.le_total (payload.length - 1440 * i) 1440 with hc | hc
    · rw [hh, Nat.min_eq_right hc,
        List.take_of_length_le (by rw [List.length_drop]),
        List.take_of_length_le (by rw [List.length_drop]; omega)]
    · rw [hh, Nat.min_eq_left (by omega)]
  unfold chunkPacket relEntry
  simp only [Nat.add_zero]
  rw [hflags, hdata, Nat.mod_eq_of_lt hns]

theorem relEntry_step (s : Session) (payload : List Nat) (r : Bool)
    (q : Outbound) (i j : Nat) :
    relEntry
      { s with next_seq := (s.next_seq + 1) % 2 ^ 32, txq := s.txq ++ [q] }
      payload r (i + 1) j = relEntry s payload r i (j + 1) := by
  unfold relEntry
  dsimp only [Session.local_window_left]
  have hidx : i + 1 + j = i + (j + 1) := by omega
  rw [hidx, Nat.mod_add_mod, show s.next_seq + 1 + j = s.next_seq + (j + 1)
    by omega]

theorem queue_data_go_of_not_lt (payload : List Nat) (r : Bool)
    (fuel : Nat) (s : Session) (off fo : Nat) (h : ¬off < payload.length) :
    Session.queue_data_go payload r fuel s off fo = s := by
  cases fuel with
  | zero => rfl
  | succ m => exact queue_data_go_end payload r s m off fo h

/-- With the remote window open beyond a full chunk throughout, the loop
entered at chunk index `i` appends exactly the closed-form fragment list.
-/
theorem frag_loop_spec (payload : List Nat) (r : Bool) :
    ∀ (fuel : Nat) (s : Session) (i : Nat),
      payload.length - 1440 * i < fuel →
      1440 * i < payload.length →
      1440 ≤ s.window_remote_left →
      s.next_seq < 2 ^ 32 →
      (Session.queue_data_go payload r fuel s (1440 * i) i).txq =
        s.txq ++ (List.range ((payload.length - 1440 * i + 1439) / 1440)).map
          (relEntry s payload r i) := by
  intro fuel
  induction fuel with
  | zero =>
    intro s i hf hlt hw hns
    omega
  | succ m ih =>
    intro s i hf hlt hw hns
    rw [queue_data_go_step payload r s m (1440 * i) i hlt,
      if_neg (by rintro ⟨h0, -⟩; omega)]
    have hhere : hereSize payload s (1440 * i) =
        min 1440 (payload.length - 1440 * i) := by
      unfold hereSize
      rw [if_neg (by omega), Nat.min_eq_right hw]
    rcases Nat.le_total (payload.length - 1440 * i) 1440 with hsmall | hbig
    · -- last chunk
      have hh1 : hereSize payload s (1440 * i) =
          payload.length - 1440 * i := by
        rw [hhere, Nat.min_eq_right hsmall]
      rw [queue_data_go_of_not_lt payload r m _ _ _ (by rw [hh1]; omega)]
      have hk : (payload.length - 1440 * i + 1439) / 1440 = 1 := by omega
      rw [hk, show List.range 1 = [0] from rfl, List.map_cons, List.map_nil]
      rw [chunk_eq_relEntry s payload r i _ hns hhere hlt]
    · -- a full 1440-byte chunk, then recurse
      have hh1 : hereSize payload s (1440 * i) = 1440 := by
        rw [hhere, Nat.min_eq_left hbig]
      by_cases hend : payload.length = 1440 * i + 1440
      · -- the full chunk is also the last byte of the payload
        rw [queue_data_go_of_not_lt payload r m _ _ _ (by rw [hh1]; omega)]
        have hk : (payload.length - 1440 * i + 1439) / 1440 = 1 := by omega
        rw [hk, show List.range 1 = [0] from rfl, List.map_cons, List.map_nil]
        rw [chunk_eq_relEntry s payload r i _ hns hhere hlt]
      · have hmore : 1440 * (i + 1) < payload.length := by omega
        have hstep : 1440 * i + hereSize payload s (1440 * i) =
            1440 * (i + 1) := by rw [hh1]; ring
        rw [hstep]
        have hrec := ih
          { s with
            next_seq := (s.next_seq + 1) % 2 ^ 32
            txq := s.txq ++
              [⟨chunkPacket payload r s (1440 * i)
                (hereSize payload s (1440 * i)) i, 0, 0⟩] } (i + 1)
          (by omega)
          hmore
          (by rw [wrl_append_unsent s _ _ rfl]; exact hw)
          (by dsimp only; exact Nat.mod_lt _ (by omega))
        rw [hrec]
        dsimp only
        rw [List.append_assoc, List.singleton_append]
        have hk : (payload.length - 1440 * i + 1439) / 1440 =
            (payload.length - 1440 * (i + 1) + 1439) / 1440 + 1 := by omega
        rw [hk, List.range_succ_eq_map, List.map_cons, List.map_map,
          chunk_eq_relEntry s payload r i _ hns hhere hlt]
        congr 1
        congr 1
        apply List.map_congr_left
        intro j hj
        simp only [Function.comp_apply, Nat.succ_eq_add_one]
        exact relEntry_step s payload r _ i j

/-- `queue_data` with the window open appends the closed-form fragment
list. -/
theorem queue_data_frag (s : Session) (payload : List Nat)
    (hw : 1440 ≤ s.window_remote_left) (hns : s.next_seq < 2 ^ 32)
    (hpos : 0 < payload.length) :
    (s.queue_data payload false).txq = s.txq ++ fragOutput s payload := by
  unfold Session.queue_data
  rw [if_neg (by simp)]
  have h0 : (0 : Nat) = 1440 * 0 := by ring
  have hmain := frag_loop_spec payload false (payload.length + 1) s 0
    (by omega) (by omega) hw hns
  rw [show (1440 * 0 : Nat) = 0 by ring] at hmain
  rw [Nat.sub_zero] at hmain
  by_cases hbig : 1440 < payload.length
  · rw [if_pos hbig]
    exact hmain
  · rw [if_neg hbig]
    exact hmain

theorem join_chunks :
    ∀ (k : Nat) (l : List Nat), k = (l.length + 1439) / 1440 →
      ((List.range k).map (fun j => (l.drop (1440 * j)).take 1440)).flatten =
        l := by
  intro k
  induction k with
  | zero =>
    intro l hl
    have h0 : l.length = 0 := by omega
    rw [List.eq_nil_of_length_eq_zero h0]
    rfl
  | succ m ih =>
    intro l hl
    rw [List.range_succ_eq_map, List.map_cons, List.map_map,
      List.flatten_cons]
    have h1 : List.map ((fun j => (l.drop (1440 * j)).take 1440) ∘ Nat.succ)
        (List.range m) =
        List.map (fun j => ((l.drop 1440).drop (1440 * j)).take 1440)
          (List.range m) := by
      apply List.map_congr_left
      intro j hj
      simp only [Function.comp_apply, Nat.succ_eq_add_one]
      rw [List.drop_drop]
      congr 2
      omega
    rw [h1, ih (l.drop 1440) (by rw [List.length_drop]; omega)]
    rw [show (1440 * 0 : Nat) = 0 by ring, List.drop_zero,
      List.take_append_drop]

/-! ### C2: fragmentation of large payloads -/

/-- C2 (amended): for `1440 < L ≤ 368640` — at most 256 fragments, so the
8-bit `fo` counter does not wrap — on a session with no in-flight bytes, a
maximal (65535) remote window, a non-wrapped `next_seq` and a non-zero
`next_fid`, `queue_data` appends exactly `ceil(L / 1440)` packets: all
share the non-zero `next_fid`, their `fo` values are `0, 1, 2, …` in queue
order, MOREBITS is set on every packet except the last, and the
concatenation of their payloads in `fo` order is the original payload. -/
theorem c2_fragmentation (s : Session) (payload : List Nat)
    (hif : s.in_flight = 0) (hwr : s.window_remote = 65535)
    (hns : s.next_seq < 2 ^ 32) (hfid : s.next_fid ≠ 0)
    (hL : 1440 < payload.length) (hL2 : payload.length ≤ 368640) :
    (s.queue_data payload false).txq = s.txq ++ fragOutput s payload ∧
    (fragOutput s payload).length = (payload.length + 1439) / 1440 ∧
    (∀ e ∈ fragOutput s payload, e.pkt.fid = s.next_fid ∧ e.pkt.fid ≠ 0) ∧
    (∀ j (hj : j < (fragOutput s payload).length),
      ((fragOutput s payload).get ⟨j, hj⟩).pkt.fo = j ∧
      (((fragOutput s payload).get ⟨j, hj⟩).pkt.flags &&& FLAG_MOREBITS = 1 ↔
        j + 1 < (fragOutput s payload).length)) ∧
    ((fragOutput s payload).map (fun e => e.pkt.data)).flatten = payload := by
  have hwl : s.window_remote_left = 65535 := by
    unfold Session.window_remote_left
    rw [hif, hwr]
    decide
  have hlen : (fragOutput s payload).length = (payload.length + 1439) / 1440 := by
    simp [fragOutput]
  have hkle : (payload.length + 1439) / 1440 ≤ 256 := by omega
  refine ⟨?_, hlen, ?_, ?_, ?_⟩
  · exact queue_data_frag s payload (by omega) hns (by omega)
  · intro e he
    rcases List.mem_map.1 he with ⟨j, hj, rfl⟩
    unfold relEntry
    dsimp only
    rw [if_pos hL]
    exact ⟨rfl, hfid⟩
  · intro j hj
    have hjk : j < (payload.length + 1439) / 1440 := by omega
    have hget : (fragOutput s payload).get ⟨j, hj⟩ =
        relEntry s payload false 0 j := by
      unfold fragOutput
      simp
    constructor
    · rw [hget]
      unfold relEntry
      dsimp only
      rw [Nat.zero_add]
      exact Nat.mod_eq_of_lt (by omega)
    · rw [hget, hlen]
      unfold relEntry
      dsimp only
      rw [Nat.zero_add]
      by_cases hmb : 1440 * j + 1440 < payload.length
      · rw [if_pos hmb, if_neg (by simp)]
        constructor
        · intro _
          omega
        · intro _
          decide
      · rw [if_neg hmb, if_neg (by simp)]
        constructor
        · intro hc
          exact absurd hc (by decide)
        · intro hc
          omega
  · unfold fragOutput
    rw [List.map_map]
    have h1 : List.map ((fun e : Outbound => e.pkt.data) ∘
        relEntry s payload false 0)
        (List.range ((payload.length + 1439) / 1440)) =
        List.map (fun j => (payload.drop (1440 * j)).take 1440)
          (List.range ((payload.length + 1439) / 1440)) := by
      apply List.map_congr_left
      intro j hj
      unfold relEntry
      dsimp only [Function.comp_apply]
      rw [Nat.zero_add]
    rw [h1, join_chunks _ payload rfl]

/-- Witness for C2: a 1441-byte payload on a freshly established session.
-/
theorem c2_witness :
    (estA.queue_data payW false).txq = estA.txq ++ fragOutput estA payW ∧
    (fragOutput estA payW).length = (payW.length + 1439) / 1440 ∧
    (∀ e ∈ fragOutput estA payW, e.pkt.fid = estA.next_fid ∧ e.pkt.fid ≠ 0) ∧
    (∀ j (hj : j < (fragOutput estA payW).length),
      ((fragOutput estA payW).get ⟨j, hj⟩).pkt.fo = j ∧
      (((fragOutput estA payW).get ⟨j, hj⟩).pkt.flags &&& FLAG_MOREBITS = 1 ↔
        j + 1 < (fragOutput estA payW).length)) ∧
    ((fragOutput estA payW).map (fun e => e.pkt.data)).flatten = payW := by
  have hlw : payW.length = 1441 := List.length_replicate 1441 1
  exact c2_fragmentation estA payW (by decide) (by decide) (by decide)
    (by decide) (by omega) (by omega)

/-- C2 counterexample: for the 368641-byte payload `payCE` the code
enqueues 257 fragments and the 8-bit `fo` of fragment 256 wraps to 0, so
the claim — read without a bound on the payload length — fails: the `fo`
values are not `0, 1, 2, …` in queue order. -/
theorem c2_counterexample :
    ¬((estA.queue_data payCE false).txq = estA.txq ++ fragOutput estA payCE ∧
      (fragOutput estA payCE).length = (payCE.length + 1439) / 1440 ∧
      (∀ e ∈ fragOutput estA payCE,
        e.pkt.fid = estA.next_fid ∧ e.pkt.fid ≠ 0) ∧
      (∀ j (hj : j < (fragOutput estA payCE).length),
        ((fragOutput estA payCE).get ⟨j, hj⟩).pkt.fo = j ∧
        (((fragOutput estA payCE).get ⟨j, hj⟩).pkt.flags &&&
            FLAG_MOREBITS = 1 ↔
          j + 1 < (fragOutput estA payCE).length)) ∧
      ((fragOutput estA payCE).map (fun e => e.pkt.data)).flatten = payCE) := by
  intro h
  have hlce : payCE.length = 368641 := List.length_replicate 368641 1
  have hlen : (fragOutput estA payCE).length = 257 := by
    unfold fragOutput
    rw [List.length_map, List.length_range, hlce]
  have h256 : (256 : Nat) < (fragOutput estA payCE).length := by omega
  have hfo := (h.2.2.2.1 256 h256).1
  have hval : ((fragOutput estA payCE).get ⟨256, h256⟩).pkt.fo = 0 := by
    unfold fragOutput at h256 ⊢
    rw [List.get_eq_getElem, List.getElem_map, List.getElem_range]
    unfold relEntry
    dsimp only
    decide
  omega

end Slow
